import Mathlib

/-!
Shallow embedding of the `microserver` static HTTP server (Go) and proofs
about its middleware pipeline.

The repository has two near-identical variants of `main.go`; both define:

* `Writer` (a response recorder wrapping an `http.ResponseWriter`,
  counting bytes and capturing the status code),
* `GzipWriter` (a sink whose byte writes are diverted through a
  `gzip.Writer`, all other calls going to the embedded sink),
* `GZip` (middleware that conditionally installs compression),
* `Handler` (hostname filter delegating to a file server),
* `Log` (access-log middleware with a deferred log append),
* the TLS variant additionally defines `SslHandler` (an unconditional
  HTTP-to-HTTPS 301 redirect with an HSTS header).

A response sink (`http.ResponseWriter`) is modelled by the trace of calls
made on it: `SinkOp.writeHeader` for `WriteHeader`, `SinkOp.write` for
`Write`, and `SinkOp.setHeader` / `SinkOp.addHeader` for `Header().Set`
and `Header().Add`.  A handler is abstracted by the list of calls it
performs on the sink it is given; each middleware is embedded as a
function transforming the inner handler's call list into the call list
it performs on its own sink, exactly as the Go methods forward them.
Byte slices are `List Nat`, clock readings (`time.Now`) are `Nat`.
-/

/-- A byte slice (`[]byte`); each element stands for one byte. -/
abbrev Bytes := List Nat

/-- One call on a response sink (`http.ResponseWriter` plus its header map). -/
inductive SinkOp where
  | writeHeader (s : Int)
  | write (b : Bytes)
  | setHeader (k v : String)
  | addHeader (k v : String)
deriving DecidableEq, Repr

/-- Whether the call is a body-byte write (`Write`). -/
def SinkOp.isWrite : SinkOp → Bool
  | .write _ => true
  | _ => false

/-- Remove every entry for a key from a header map. -/
def removeKey (k : String) : List (String × String) → List (String × String)
  | [] => []
  | p :: t => if p.1 = k then removeKey k t else p :: removeKey k t

/-- Header-map update: `Header().Set(k, v)` replaces every entry for `k`. -/
def setHdr (hs : List (String × String)) (k v : String) : List (String × String) :=
  removeKey k hs ++ [(k, v)]

/-- Header-map update: `Header().Add(k, v)` appends an entry for `k`. -/
def addHdr (hs : List (String × String)) (k v : String) : List (String × String) :=
  hs ++ [(k, v)]

/-- Header-map lookup: `Header().Get(k)` (first value for the key). -/
def getHdr (hs : List (String × String)) (k : String) : Option String :=
  (hs.find? (fun p => p.1 = k)).map (fun p => p.2)

/-- The state of the underlying (transport-level) response sink: response
headers, the `WriteHeader` calls it received in order, and the body bytes
written to it. -/
structure SinkState where
  headers : List (String × String)
  statusCalls : List Int
  body : Bytes
deriving DecidableEq, Repr

/-- A sink that has received no calls yet. -/
def emptySink : SinkState := ⟨[], [], []⟩

/-- Effect of one call on the underlying sink. -/
def applyOp (st : SinkState) : SinkOp → SinkState
  | .writeHeader s => { st with statusCalls := st.statusCalls ++ [s] }
  | .write b => { st with body := st.body ++ b }
  | .setHeader k v => { st with headers := setHdr st.headers k v }
  | .addHeader k v => { st with headers := addHdr st.headers k v }

/-- Effect of a call list on the underlying sink. -/
def applyOps (st : SinkState) : List SinkOp → SinkState
  | [] => st
  | o :: rest => applyOps (applyOp st o) rest

/-- The status the HTTP transport sends on the wire: the first explicit
`WriteHeader` value, or 200 if body bytes are written with no explicit
call (`net/http` behaviour). -/
def wireStatus (st : SinkState) : Int :=
  (st.statusCalls.head?).getD 200

/-- Concatenation of all byte slices passed to `Write` in a call list. -/
def writtenBytes : List SinkOp → Bytes
  | [] => []
  | .write b :: rest => b ++ writtenBytes rest
  | _ :: rest => writtenBytes rest

/-- The `WriteHeader` arguments of a call list, in order. -/
def statusesOf : List SinkOp → List Int
  | [] => []
  | .writeHeader s :: rest => s :: statusesOf rest
  | _ :: rest => statusesOf rest

/-- The calls of a list that are not body writes. -/
def nonWrites (ops : List SinkOp) : List SinkOp :=
  ops.filter (fun o => !o.isWrite)

/-! ### The response recorder (`Writer`)

```go
type Writer struct {
        http.ResponseWriter
        Status int
        Bytes  int
}
func (w *Writer) Write(b []byte) (int, error) {
        w.Bytes += len(b)
        return w.ResponseWriter.Write(b)
}
func (w *Writer) WriteHeader(s int) {
        w.Status = s
        w.ResponseWriter.WriteHeader(s)
}
```

`Writer{ResponseWriter: w}` leaves `Status` and `Bytes` at their Go zero
values.  Header-map access (`Header()`) is the promoted method of the
embedded sink, so `setHeader`/`addHeader` calls do not touch the recorder
state.  Every call is forwarded to the embedded sink unchanged, so the
call list reaching the underlying sink is the recorder's input list
itself; `runRecorder` computes only the recorder-local state. -/

/-- The recorder-local state of a `Writer`. -/
structure RecState where
  status : Int
  bytes : Nat
deriving DecidableEq, Repr

/-- Effect of one forwarded call on the recorder state. -/
def recStep (rs : RecState) : SinkOp → RecState
  | .writeHeader s => { rs with status := s }
  | .write b => { rs with bytes := rs.bytes + b.length }
  | _ => rs

/-- Recorder state after a call list, starting from a given state. -/
def runRecorderFrom (rs : RecState) : List SinkOp → RecState
  | [] => rs
  | o :: rest => runRecorderFrom (recStep rs o) rest

/-- Recorder state of `Writer{ResponseWriter: w}` (zero-valued fields)
after processing a call list. -/
def runRecorder (ops : List SinkOp) : RecState :=
  runRecorderFrom ⟨0, 0⟩ ops

/-! ### Requests and Go string helpers -/

/-- The parts of `url.URL` the program touches (`Scheme`, `Host`, `Path`,
`RawQuery`; `User`, `Opaque` and `Fragment` are never set by the server
or the redirect handler and are omitted). -/
structure URL where
  scheme : String
  host : String
  path : String
  rawQuery : String
deriving DecidableEq, Repr

/-- The parts of `*http.Request` the program reads: `Method`, `Host`,
`RequestURI`, `RemoteAddr`, the `Accept-Encoding` and `referer` header
values, `UserAgent()`, and (TLS variant) `URL`. -/
structure Request where
  method : String
  host : String
  requestURI : String
  remoteAddr : String
  acceptEncoding : String
  referer : String
  userAgent : String
  url : URL
deriving DecidableEq, Repr

/-- Whether the first list is a prefix of the second. -/
def prefixOfChars : List Char → List Char → Bool
  | [], _ => true
  | _ :: _, [] => false
  | a :: xs, b :: ys => a = b && prefixOfChars xs ys

/-- Whether `sub` occurs as a contiguous sublist of the second list. -/
def hasInfixChars (sub : List Char) : List Char → Bool
  | [] => prefixOfChars sub []
  | a :: rest => prefixOfChars sub (a :: rest) || hasInfixChars sub rest

/-- `strings.Contains(s, sub)`, equivalently `strings.Index(s, sub) != -1`:
`sub` occurs as a contiguous substring of `s` (and the empty `sub` occurs
in every string). -/
def goContains (s sub : String) : Bool :=
  hasInfixChars sub.toList s.toList

/-- The bytes of an ASCII string (each char as its code point). -/
def strBytes (s : String) : Bytes :=
  s.toList.map Char.toNat

/-! ### The compressing writer (`GzipWriter`) and the `GZip` middleware

```go
type GzipWriter struct {
        gz io.Writer
        http.ResponseWriter
}
func (w GzipWriter) Write(b []byte) (int, error) {
        return w.gz.Write(b)
}
func (h GZip) ServeHTTP(w http.ResponseWriter, r *http.Request) {
        if strings.Contains(r.Header.Get("Accept-Encoding"), "gzip") {
                uri := r.RequestURI
                if uri == "/" {
                        uri += "index.html"
                }
                if h.Match([]byte(uri)) {
                        w.Header().Set("Content-Encoding", "gzip")
                        gz := gzip.NewWriter(w)
                        defer gz.Close()
                        h.Handler.ServeHTTP(GzipWriter{gz: gz, ResponseWriter: w}, r)
                        return
                }
        }
        h.Handler.ServeHTTP(w, r)
}
```
-/

/-- `Accept-Encoding` check of `GZip.ServeHTTP`. -/
def acceptsGzip (r : Request) : Bool :=
  goContains r.acceptEncoding "gzip"

/-- The URI used for extension matching: `uri := r.RequestURI`, and
`uri += "index.html"` when the URI is exactly `"/"`. -/
def effectiveURI (uri : String) : String :=
  if uri = "/" then uri ++ "index.html" else uri

/-- The characters of a string, lower-cased. -/
def lowerChars (s : String) : List Char :=
  s.toList.map Char.toLower

/-- Whether the second list is a suffix of the first. -/
def endsWithChars (s suffix : List Char) : Bool :=
  prefixOfChars suffix.reverse s.reverse

/-- The matcher `regexp.MustCompile("(?i)\\.(" + strings.Join(exts, "|") + ")$")`
applied to the URI, embedded for configurations whose extension names are
nonempty literals without regexp metacharacters (the form the spec
prescribes: extension suffixes without the leading dot): the URI matches
iff it ends, case-insensitively, in a dot followed by one of the
configured extensions. -/
def gzipMatch (exts : List String) (uri : String) : Bool :=
  exts.any (fun e => endsWithChars (lowerChars uri) (lowerChars ("." ++ e)))

/-- Whether a call sets or adds the given header key. -/
def mentionsKey (key : String) : SinkOp → Bool
  | .setHeader k _ => k = key
  | .addHeader k _ => k = key
  | _ => false

/-- What the underlying sink of a `GzipWriter` receives by the time the
middleware returns, given the calls made on the `GzipWriter`: every
non-`Write` call is the promoted method of the embedded sink and passes
through unchanged and in order; the byte slices passed to `Write` are fed
to the `gzip.Writer`, which delivers the compressed stream
(`compress` of the concatenated input) to the underlying sink by the time
`gz.Close()` has run. -/
def gzTranslate (compress : Bytes → Bytes) (ops : List SinkOp) : List SinkOp :=
  nonWrites ops ++ [SinkOp.write (compress (writtenBytes ops))]

/-- Result of `GZip.ServeHTTP` viewed from its caller: the calls it made
on the sink it was given, how many times the compressor was finalized
(`gz.Close()`), and whether the call unwound with a panic (a panic of the
inner handler propagates; the deferred `gz.Close()` still runs). -/
structure GzipResult where
  ops : List SinkOp
  closes : Nat
  panicked : Bool
deriving Repr

/-- `GZip.ServeHTTP`, with the inner handler abstracted by the calls
`innerOps` it makes on the sink it is given before returning or
panicking (`innerPanics`). -/
def gzipServe (compress : Bytes → Bytes) (exts : List String)
    (innerOps : List SinkOp) (innerPanics : Bool) (r : Request) : GzipResult :=
  if acceptsGzip r then
    if gzipMatch exts (effectiveURI r.requestURI) then
      { ops := SinkOp.setHeader "Content-Encoding" "gzip" :: gzTranslate compress innerOps
        closes := 1
        panicked := innerPanics }
    else
      { ops := innerOps, closes := 0, panicked := innerPanics }
  else
    { ops := innerOps, closes := 0, panicked := innerPanics }

/-! ### Header-map bookkeeping -/

/-- Effect of one call on the response header map alone. -/
def applyHdr (hs : List (String × String)) : SinkOp → List (String × String)
  | .setHeader k v => setHdr hs k v
  | .addHeader k v => addHdr hs k v
  | _ => hs

/-- Effect of a call list on the response header map alone. -/
def applyHdrs (hs : List (String × String)) : List SinkOp → List (String × String)
  | [] => hs
  | o :: rest => applyHdrs (applyHdr hs o) rest

/-! ### The hostname filter (`Handler`)

```go
func (h Handler) ServeHTTP(w http.ResponseWriter, r *http.Request) {
        if strings.Index(r.Host, config.Httpd.Hostname) != -1 {
                h.files.ServeHTTP(w, r)
        } else {
                http.NotFound(w, r)
        }
}
```
-/

/-- The calls `http.NotFound` makes on the sink: it is
`http.Error(w, "404 page not found", 404)`, which sets two headers,
writes the 404 status, and prints the message with a trailing newline. -/
def notFoundOps : List SinkOp :=
  [SinkOp.setHeader "Content-Type" "text/plain; charset=utf-8",
   SinkOp.setHeader "X-Content-Type-Options" "nosniff",
   SinkOp.writeHeader 404,
   SinkOp.write (strBytes "404 page not found\n")]

/-- `Handler.ServeHTTP`, with the file server abstracted by the calls it
makes on the sink for a given request. -/
def handlerServe (hostname : String) (files : Request → List SinkOp)
    (r : Request) : List SinkOp :=
  if goContains r.host hostname then files r else notFoundOps

/-! ### The TLS-variant redirect handler (`SslHandler`)

```go
func (s SslHandler) ServeHTTP(w http.ResponseWriter, r *http.Request) {
        r.URL.Scheme = "https"
        w.Header().Add("Strict-Transport-Security", "max-age=604800")
        http.Redirect(w, r, r.URL.String(), http.StatusMovedPermanently)
}
```
-/

/-- `url.URL.String()` for URLs without `User`, `Opaque` or `Fragment`
(ASCII path and query, as `EscapedPath` is the identity there): optional
`scheme:`, then `//` when the URL has a scheme or host and a host or
path, then host, path and optional `?query`. -/
def urlString (u : URL) : String :=
  (if u.scheme ≠ "" then u.scheme ++ ":" else "") ++
    (if (u.scheme ≠ "" ∨ u.host ≠ "") ∧ (u.host ≠ "" ∨ u.path ≠ "") then "//" else "") ++
    u.host ++ u.path ++
    (if u.rawQuery ≠ "" then "?" ++ u.rawQuery else "")

/-- `html.EscapeString` on one character. -/
def htmlEscapeChar (c : Char) : String :=
  if c = '&' then "&amp;"
  else if c = Char.ofNat 39 then "&#39;"
  else if c = '<' then "&lt;"
  else if c = '>' then "&gt;"
  else if c = Char.ofNat 34 then "&#34;"
  else String.singleton c

/-- `html.EscapeString`. -/
def htmlEscape (s : String) : String :=
  String.join (s.toList.map htmlEscapeChar)

/-- The hyperlink body `http.Redirect` prints for GET requests
(`http.StatusText(301)` is `"Moved Permanently"`; `fmt.Fprintln` appends
the newline). -/
def redirectBody (loc : String) : String :=
  "<a href=\"" ++ htmlEscape loc ++ "\">Moved Permanently</a>.\n"

/-- The calls `http.Redirect(w, r, loc, code)` makes on the sink, for an
absolute ASCII `loc` (the parse-and-relativize step leaves URLs with a
scheme unchanged, and `hexEscapeNonASCII` is the identity on ASCII) and
a response that has no `Content-Type` header yet: set `Location`, set a
`Content-Type` and print the hyperlink body only for GET requests, and
write the status code in between. -/
def redirectOps (method : String) (loc : String) (code : Int) : List SinkOp :=
  [SinkOp.setHeader "Location" loc] ++
    (if method = "GET"
      then [SinkOp.setHeader "Content-Type" "text/html; charset=utf-8"] else []) ++
    [SinkOp.writeHeader code] ++
    (if method = "GET" then [SinkOp.write (strBytes (redirectBody loc))] else [])

/-- `SslHandler.ServeHTTP`: rewrite the request URL's scheme to
`"https"`, add the HSTS header, and redirect (301) to the rewritten
URL's string form. -/
def sslServe (r : Request) : List SinkOp :=
  SinkOp.addHeader "Strict-Transport-Security" "max-age=604800" ::
    redirectOps r.method (urlString { r.url with scheme := "https" }) 301

/-! ### Remote-address normalization and the access-log line

```go
if idx := strings.LastIndex(r.RemoteAddr, ":"); idx > 0 {
        addr = r.RemoteAddr[:idx]
} else {
        addr = r.RemoteAddr
}
addr = strings.Trim(addr, "[]")
```
-/

/-- Index of the last occurrence of a character
(`strings.LastIndex(s, c)` restricted to a one-character needle;
`none` for `-1`). -/
def lastIndexOfChar (c : Char) : List Char → Option Nat
  | [] => none
  | a :: rest =>
    match lastIndexOfChar c rest with
    | some i => some (i + 1)
    | none => if a = c then some 0 else none

/-- Index of the first occurrence of a character. -/
def firstIndexOfChar (c : Char) : List Char → Option Nat
  | [] => none
  | a :: rest =>
    if a = c then some 0 else (firstIndexOfChar c rest).map (fun j => j + 1)

/-- The port-stripping step of `Log.ServeHTTP`: truncate before the last
`':'` only when its index is strictly positive. -/
def goCutPort (cs : List Char) : List Char :=
  match lastIndexOfChar ':' cs with
  | some i => if 0 < i then cs.take i else cs
  | none => cs

/-- Membership in the cutset of `strings.Trim(addr, "[]")`. -/
def isSquareBracket (c : Char) : Bool :=
  c = '[' ∨ c = ']'

/-- `strings.Trim(addr, "[]")`: remove all leading and trailing `'['` and
`']'` characters. -/
def trimSquare (cs : List Char) : List Char :=
  ((cs.dropWhile isSquareBracket).reverse.dropWhile isSquareBracket).reverse

/-- The address as logged by `Log.ServeHTTP`: port-stripping step, then
`strings.Trim(addr, "[]")`. -/
def normalizeAddr (s : String) : String :=
  String.mk (trimSquare (goCutPort s.toList))

/-- Modelled from the words of claim C7 for comparison: truncate at the
last colon whenever one is present, then strip the enclosing square
brackets; an input with no colon is logged unchanged. -/
def normalizeAddrClaim (s : String) : String :=
  match lastIndexOfChar ':' s.toList with
  | some i => String.mk (trimSquare (s.toList.take i))
  | none => s

/-- The amended normalization, formulated independently of `normalizeAddr`
by scanning from the right: truncate before the rightmost colon when that
colon is not the first character, then strip all leading and trailing
square brackets. -/
def cutPortRev (cs : List Char) : List Char :=
  match firstIndexOfChar ':' cs.reverse with
  | some j => if j + 2 ≤ cs.length then cs.take (cs.length - 1 - j) else cs
  | none => cs

/-- Amended-claim normalization (right-scan formulation). -/
def normalizeAddrAmended (s : String) : String :=
  String.mk (trimSquare (cutPortRev s.toList))

/-- The access-log line of `Log.ServeHTTP`:
`"%s [%s] %s \"%s\" %d %d \"%s\" \"%s\"\n"` applied to the normalized
address, the completion timestamp (clock readings are abstracted to a
`Nat` counter rendered in decimal), the method, the request URI, the
recorded status and byte count, the referer, and the user agent. -/
def formatLogLine (r : Request) (now : Nat) (lw : RecState) : String :=
  normalizeAddr r.remoteAddr ++ " [" ++ toString now ++ "] " ++ r.method ++
    " \"" ++ r.requestURI ++ "\" " ++ toString lw.status ++ " " ++
    toString lw.bytes ++ " \"" ++ r.referer ++ "\" \"" ++ r.userAgent ++ "\"\n"

/-- A run of an inner handler: the calls it makes on the sink it is
given, how far it advances the clock, and whether it returns normally or
unwinds with a panic (in which case `ops` are the calls made before the
panic). -/
structure InnerRun where
  ops : List SinkOp
  dt : Nat
  panics : Bool

/-- Result of `Log.ServeHTTP`: the log sink contents, the underlying
response sink, the final recorder state, the clock after the request,
and whether the call unwound with a panic (the deferred log append runs
either way, and the panic then propagates). -/
structure LogResult where
  logLines : List String
  base : SinkState
  recState : RecState
  clockEnd : Nat
  panicked : Bool

/-- `Log.ServeHTTP`:

```go
func (l Log) ServeHTTP(w http.ResponseWriter, r *http.Request) {
        lw := Writer{ResponseWriter: w}
        defer func() { ... fmt.Fprintf(l, "...", addr, time.Now()..., lw.Status, lw.Bytes, ...) }()
        l.Handler.ServeHTTP(&lw, r)
}
```

The recorder forwards every call to the underlying sink unchanged, so the
base sink receives `inner.ops` as made; the deferred closure reads the
clock after the delegated call and appends exactly one line, whether the
delegated call returned or panicked. -/
def logServe (lines : List String) (base : SinkState) (clock0 : Nat)
    (inner : InnerRun) (r : Request) : LogResult :=
  let lw := runRecorder inner.ops
  let clock1 := clock0 + inner.dt
  { logLines := lines ++ [formatLogLine r clock1 lw]
    base := applyOps base inner.ops
    recState := lw
    clockEnd := clock1
    panicked := inner.panics }

/-- The wiring of `main`: `Log{..., Handler: GZip{..., ...}}` — the log
middleware's recorder wraps the outermost sink, and the gzip middleware
(with the host filter and file server abstracted as `inner`) runs through
that recorder. -/
def pipelineServe (lines : List String) (base : SinkState) (clock0 : Nat)
    (compress : Bytes → Bytes) (exts : List String)
    (inner : InnerRun) (r : Request) : LogResult :=
  let g := gzipServe compress exts inner.ops inner.panics r
  logServe lines base clock0 { ops := g.ops, dt := inner.dt, panics := g.panicked } r

/-! ### Configuration loading (`init` and the start of `main`)

```go
var config *Config
func init() {
        if f, err := os.OpenFile("config.json", 0, 0); err == nil {
                config = new(Config)
                if err := json.NewDecoder(f).Decode(config); err != nil {
                        panic(err)
                }
        }
}
func main() {
        ...
        if f, err := os.OpenFile(config.Httpd.AccessLog, os.O_CREATE|os.O_APPEND, 0); err == nil {
        ...
}
```
-/

/-- The `Httpd` section of the configuration (main-variant fields). -/
structure HttpdConfig where
  listen : String
  hostname : String
  root : String
  accessLog : String
  gzip : List String
deriving DecidableEq, Repr

/-- The configuration struct. -/
structure Config where
  httpd : HttpdConfig
deriving DecidableEq, Repr

/-- `init`, with the file system abstracted: the argument is `none` when
`os.OpenFile("config.json", 0, 0)` fails, and otherwise carries the
decoder's result.  Returns the package-level `config` pointer
(`Option Config`, `none` for `nil`) and whether `init` panicked.  An open
failure takes the silent path: `config` stays `nil` and no error is
reported. -/
def runInit : Option (Except String Config) → Option Config × Bool
  | none => (none, false)
  | some (Except.ok c) => (some c, false)
  | some (Except.error _) => (some ⟨⟨"", "", "", "", []⟩⟩, true)

/-- How `main` starts, as a function of the `config` pointer: its first
action dereferences `config.Httpd.AccessLog`, so a `nil` pointer is a
nil-pointer panic; otherwise it proceeds to open the access log. -/
inductive MainStart where
  | nilPanic
  | opensLog (accessLog : String)
deriving DecidableEq, Repr

/-- The first config dereference of `main`. -/
def mainStart : Option Config → MainStart
  | none => MainStart.nilPanic
  | some c => MainStart.opensLog c.httpd.accessLog

/-- A sample request from a gzip-capable client for the root path. -/
def rqGz : Request :=
  { method := "GET"
    host := "www.example.com"
    requestURI := "/"
    remoteAddr := "203.0.113.5:51000"
    acceptEncoding := "gzip, deflate"
    referer := ""
    userAgent := "curl/8"
    url := ⟨"", "", "/", ""⟩ }

/-- A sample request from a client that does not accept gzip, addressed
to a host that does not contain the configured hostname. -/
def rqPlain : Request :=
  { method := "GET"
    host := "other.invalid"
    requestURI := "/a.txt"
    remoteAddr := "[::1]:9999"
    acceptEncoding := ""
    referer := ""
    userAgent := ""
    url := ⟨"", "", "/a.txt", ""⟩ }

/-! ### Basic lemmas about the sink and the recorder -/

theorem applyOps_append (st : SinkState) (l₁ l₂ : List SinkOp) :
    applyOps st (l₁ ++ l₂) = applyOps (applyOps st l₁) l₂ := by
  induction l₁ generalizing st with
  | nil => rfl
  | cons o rest ih => simp [applyOps, ih]

theorem applyOps_body (st : SinkState) (ops : List SinkOp) :
    (applyOps st ops).body = st.body ++ writtenBytes ops := by
  induction ops generalizing st with
  | nil => simp [applyOps, writtenBytes]
  | cons o rest ih =>
    cases o <;> simp [applyOps, applyOp, writtenBytes, ih]

theorem applyOps_statusCalls (st : SinkState) (ops : List SinkOp) :
    (applyOps st ops).statusCalls = st.statusCalls ++ statusesOf ops := by
  induction ops generalizing st with
  | nil => simp [applyOps, statusesOf]
  | cons o rest ih =>
    cases o <;> simp [applyOps, applyOp, statusesOf, ih]

theorem runRecorderFrom_bytes (rs : RecState) (ops : List SinkOp) :
    (runRecorderFrom rs ops).bytes = rs.bytes + (writtenBytes ops).length := by
  induction ops generalizing rs with
  | nil => simp [runRecorderFrom, writtenBytes]
  | cons o rest ih =>
    cases o <;> simp [runRecorderFrom, recStep, writtenBytes, ih, Nat.add_assoc]

theorem getLast?_cons_getD {α : Type} (l : List α) :
    ∀ a d : α, ((a :: l).getLast?).getD d = (l.getLast?).getD a := by
  induction l with
  | nil => intro a d; rfl
  | cons b t ih =>
    intro a d
    rw [List.getLast?_cons_cons, ih b d, ih b a]

theorem runRecorderFrom_status (rs : RecState) (ops : List SinkOp) :
    (runRecorderFrom rs ops).status = ((statusesOf ops).getLast?).getD rs.status := by
  induction ops generalizing rs with
  | nil => simp [runRecorderFrom, statusesOf]
  | cons o rest ih =>
    cases o <;>
      simp [runRecorderFrom, recStep, statusesOf, ih, getLast?_cons_getD]

theorem writtenBytes_append (l₁ l₂ : List SinkOp) :
    writtenBytes (l₁ ++ l₂) = writtenBytes l₁ ++ writtenBytes l₂ := by
  induction l₁ with
  | nil => simp [writtenBytes]
  | cons o rest ih => cases o <;> simp [writtenBytes, ih]

theorem statusesOf_append (l₁ l₂ : List SinkOp) :
    statusesOf (l₁ ++ l₂) = statusesOf l₁ ++ statusesOf l₂ := by
  induction l₁ with
  | nil => simp [statusesOf]
  | cons o rest ih => cases o <;> simp [statusesOf, ih]

theorem nonWrites_cons_write (b : Bytes) (rest : List SinkOp) :
    nonWrites (SinkOp.write b :: rest) = nonWrites rest := rfl

theorem nonWrites_cons_writeHeader (s : Int) (rest : List SinkOp) :
    nonWrites (SinkOp.writeHeader s :: rest) =
      SinkOp.writeHeader s :: nonWrites rest := rfl

theorem nonWrites_cons_setHeader (k v : String) (rest : List SinkOp) :
    nonWrites (SinkOp.setHeader k v :: rest) =
      SinkOp.setHeader k v :: nonWrites rest := rfl

theorem nonWrites_cons_addHeader (k v : String) (rest : List SinkOp) :
    nonWrites (SinkOp.addHeader k v :: rest) =
      SinkOp.addHeader k v :: nonWrites rest := rfl

theorem writtenBytes_nonWrites (ops : List SinkOp) :
    writtenBytes (nonWrites ops) = [] := by
  induction ops with
  | nil => rfl
  | cons o rest ih =>
    cases o with
    | writeHeader s =>
      rw [nonWrites_cons_writeHeader]
      exact ih
    | write b =>
      rw [nonWrites_cons_write]
      exact ih
    | setHeader k v =>
      rw [nonWrites_cons_setHeader]
      exact ih
    | addHeader k v =>
      rw [nonWrites_cons_addHeader]
      exact ih

theorem statusesOf_nonWrites (ops : List SinkOp) :
    statusesOf (nonWrites ops) = statusesOf ops := by
  induction ops with
  | nil => rfl
  | cons o rest ih =>
    cases o with
    | writeHeader s =>
      rw [nonWrites_cons_writeHeader]
      show s :: statusesOf (nonWrites rest) = s :: statusesOf rest
      rw [ih]
    | write b =>
      rw [nonWrites_cons_write]
      exact ih
    | setHeader k v =>
      rw [nonWrites_cons_setHeader]
      exact ih
    | addHeader k v =>
      rw [nonWrites_cons_addHeader]
      exact ih

theorem nonWrites_idem (ops : List SinkOp) :
    nonWrites (nonWrites ops) = nonWrites ops := by
  induction ops with
  | nil => rfl
  | cons o rest ih =>
    cases o with
    | writeHeader s =>
      rw [nonWrites_cons_writeHeader, nonWrites_cons_writeHeader, ih]
    | write b =>
      rw [nonWrites_cons_write]
      exact ih
    | setHeader k v =>
      rw [nonWrites_cons_setHeader, nonWrites_cons_setHeader, ih]
    | addHeader k v =>
      rw [nonWrites_cons_addHeader, nonWrites_cons_addHeader, ih]

theorem applyOps_headers (st : SinkState) (ops : List SinkOp) :
    (applyOps st ops).headers = applyHdrs st.headers ops := by
  induction ops generalizing st with
  | nil => rfl
  | cons o rest ih =>
    cases o <;> simp [applyOps, applyOp, applyHdrs, applyHdr, ih]

theorem applyHdrs_append (hs : List (String × String)) (l₁ l₂ : List SinkOp) :
    applyHdrs hs (l₁ ++ l₂) = applyHdrs (applyHdrs hs l₁) l₂ := by
  induction l₁ generalizing hs with
  | nil => rfl
  | cons o rest ih => simp [applyHdrs, ih]

theorem applyHdrs_nonWrites (hs : List (String × String)) (ops : List SinkOp) :
    applyHdrs hs (nonWrites ops) = applyHdrs hs ops := by
  induction ops generalizing hs with
  | nil => rfl
  | cons o rest ih =>
    cases o with
    | writeHeader s =>
      rw [nonWrites_cons_writeHeader]
      exact ih hs
    | write b =>
      rw [nonWrites_cons_write, ih hs]
      rfl
    | setHeader k v =>
      rw [nonWrites_cons_setHeader]
      exact ih (setHdr hs k v)
    | addHeader k v =>
      rw [nonWrites_cons_addHeader]
      exact ih (addHdr hs k v)

theorem getHdr_append (hs₁ hs₂ : List (String × String)) (key : String) :
    getHdr (hs₁ ++ hs₂) key =
      match getHdr hs₁ key with
      | some v => some v
      | none => getHdr hs₂ key := by
  induction hs₁ with
  | nil => simp [getHdr]
  | cons p t ih =>
    by_cases hp : p.1 = key
    · simp [getHdr, List.find?, hp]
    · simp only [getHdr, List.cons_append, List.find?] at ih ⊢
      simp [hp] at ih ⊢
      exact ih

theorem getHdr_removeKey_ne (hs : List (String × String)) (k key : String)
    (h : k ≠ key) :
    getHdr (removeKey k hs) key = getHdr hs key := by
  induction hs with
  | nil => rfl
  | cons p t ih =>
    by_cases hpk : p.1 = k
    · have hp : ¬p.1 = key := by
        rw [hpk]
        exact h
      simpa [removeKey, hpk, getHdr, List.find?, hp, h] using ih
    · by_cases hp : p.1 = key
      · have hkey : ¬key = k := fun e => h e.symm
        simp [removeKey, hpk, getHdr, List.find?, hp, hkey]
      · simpa [removeKey, hpk, getHdr, List.find?, hp] using ih

theorem getHdr_removeKey_self (hs : List (String × String)) (k : String) :
    getHdr (removeKey k hs) k = none := by
  induction hs with
  | nil => rfl
  | cons p t ih =>
    by_cases hpk : p.1 = k
    · simpa [removeKey, hpk] using ih
    · simpa [removeKey, hpk, getHdr, List.find?] using ih

theorem getHdr_setHdr_self (hs : List (String × String)) (k v : String) :
    getHdr (setHdr hs k v) k = some v := by
  rw [setHdr, getHdr_append, getHdr_removeKey_self]
  simp [getHdr, List.find?]

theorem getHdr_setHdr_ne (hs : List (String × String)) (k v key : String)
    (h : k ≠ key) :
    getHdr (setHdr hs k v) key = getHdr hs key := by
  rw [setHdr, getHdr_append, getHdr_removeKey_ne hs k key h]
  cases hval : getHdr hs key with
  | some w => rfl
  | none => simp [getHdr, List.find?, h]

theorem getHdr_addHdr_ne (hs : List (String × String)) (k v key : String)
    (h : k ≠ key) :
    getHdr (addHdr hs k v) key = getHdr hs key := by
  rw [addHdr, getHdr_append]
  cases hval : getHdr hs key with
  | some w => rfl
  | none => simp [getHdr, List.find?, h]

theorem getHdr_applyHdr_no_mention (hs : List (String × String)) (o : SinkOp)
    (key : String) (h : mentionsKey key o = false) :
    getHdr (applyHdr hs o) key = getHdr hs key := by
  cases o with
  | writeHeader s => rfl
  | write b => rfl
  | setHeader k v =>
    have hk : k ≠ key := by simpa [mentionsKey] using h
    exact getHdr_setHdr_ne hs k v key hk
  | addHeader k v =>
    have hk : k ≠ key := by simpa [mentionsKey] using h
    exact getHdr_addHdr_ne hs k v key hk

theorem getHdr_applyHdrs_no_mention (hs : List (String × String))
    (ops : List SinkOp) (key : String)
    (h : ops.all (fun o => !mentionsKey key o) = true) :
    getHdr (applyHdrs hs ops) key = getHdr hs key := by
  induction ops generalizing hs with
  | nil => rfl
  | cons o rest ih =>
    rw [List.all_cons, Bool.and_eq_true] at h
    have ho : mentionsKey key o = false := by simpa using h.1
    rw [applyHdrs, ih (applyHdr hs o) h.2, getHdr_applyHdr_no_mention hs o key ho]

theorem all_no_mention_nonWrites (ops : List SinkOp) (key : String)
    (h : ops.all (fun o => !mentionsKey key o) = true) :
    (nonWrites ops).all (fun o => !mentionsKey key o) = true := by
  rw [List.all_eq_true] at h ⊢
  intro o ho
  exact h o (List.mem_filter.1 ho).1

/-- Counterexample to C1: a request whose handler writes one body byte and
never calls `WriteHeader`.  The recorded status stays at the zero value 0;
it is not defaulted to 200. -/
theorem C1_counterexample :
    (runRecorder [SinkOp.write [104]]).status = 0 ∧
      (runRecorder [SinkOp.write [104]]).status ≠ 200 := by
  constructor
  · rfl
  · decide

/-- Claim C1 (amended): the recorded status equals the last value passed to
`WriteHeader`, and stays 0 (the unset zero value) when `WriteHeader` is
never called — the 200 default is applied by the underlying transport
(`wireStatus`), not reflected in the recorder.  The recorded byte count
is the total length of the byte slices written. -/
theorem C1_recorder_status_amended (ops : List SinkOp) :
    (runRecorder ops).status = ((statusesOf ops).getLast?).getD 0 ∧
      (runRecorder ops).bytes = (writtenBytes ops).length := by
  refine ⟨?_, ?_⟩
  · simpa using runRecorderFrom_status ⟨0, 0⟩ ops
  · simpa using runRecorderFrom_bytes ⟨0, 0⟩ ops

theorem nonWrites_append (l₁ l₂ : List SinkOp) :
    nonWrites (l₁ ++ l₂) = nonWrites l₁ ++ nonWrites l₂ := by
  simp [nonWrites, List.filter_append]

/-- Claim C8: installing the compressing writer diverts only byte writes
through the compressor: the status-setting calls reaching the underlying
sink are exactly those issued, unchanged and in order (so the status the
underlying sink observes is unaltered), the non-write calls pass through
exactly, and the headers the underlying sink ends up with are unchanged. -/
theorem C8_gzipwriter_status_passthrough (compress : Bytes → Bytes)
    (base : SinkState) (ops : List SinkOp) :
    (applyOps base (gzTranslate compress ops)).statusCalls =
        (applyOps base ops).statusCalls ∧
      statusesOf (gzTranslate compress ops) = statusesOf ops ∧
      nonWrites (gzTranslate compress ops) = nonWrites ops ∧
      (applyOps base (gzTranslate compress ops)).headers =
        (applyOps base ops).headers := by
  refine ⟨?_, ?_, ?_, ?_⟩
  · rw [applyOps_statusCalls, applyOps_statusCalls, gzTranslate, statusesOf_append,
      statusesOf_nonWrites]
    simp [statusesOf]
  · rw [gzTranslate, statusesOf_append, statusesOf_nonWrites]
    simp [statusesOf]
  · rw [gzTranslate, nonWrites_append, nonWrites_idem, nonWrites_cons_write]
    simp [nonWrites]
  · rw [applyOps_headers, applyOps_headers, gzTranslate, applyHdrs_append,
      applyHdrs_nonWrites]
    rfl

/-- Claim C9: whenever the gzip middleware installs the compressing writer
(the client accepts gzip and the effective URI matches a configured
extension), the first call on the downstream sink sets
`Content-Encoding: gzip` — so the header is set before any body byte —
the compressor is finalized exactly once before the middleware returns,
and an abnormal completion of the inner handler propagates after that
finalization instead of skipping it. -/
theorem C9_gzip_finalized_once (compress : Bytes → Bytes) (exts : List String)
    (innerOps : List SinkOp) (b : Bool) (r : Request)
    (h1 : acceptsGzip r = true)
    (h2 : gzipMatch exts (effectiveURI r.requestURI) = true) :
    (gzipServe compress exts innerOps b r).closes = 1 ∧
      (gzipServe compress exts innerOps b r).ops.head? =
        some (SinkOp.setHeader "Content-Encoding" "gzip") ∧
      (gzipServe compress exts innerOps b r).panicked = b := by
  simp [gzipServe, h1, h2]

theorem C9_gzip_finalized_once_witness :
    (gzipServe (fun bs => bs) ["html"] [SinkOp.write [1]] true rqGz).closes = 1 ∧
      (gzipServe (fun bs => bs) ["html"] [SinkOp.write [1]] true rqGz).ops.head? =
        some (SinkOp.setHeader "Content-Encoding" "gzip") ∧
      (gzipServe (fun bs => bs) ["html"] [SinkOp.write [1]] true rqGz).panicked = true :=
  C9_gzip_finalized_once (fun bs => bs) ["html"] [SinkOp.write [1]] true rqGz
    (by decide) (by decide)

/-- Claim C2: the gzip middleware sets `Content-Encoding: gzip` and routes the
body through the compressor iff the client's `Accept-Encoding` contains
`"gzip"` and the effective URI (the request URI, with `"/"` extended to
`"/index.html"` for matching only) has a case-insensitive suffix matching
a configured compressible extension; otherwise it delegates with the
original sink and — provided the inner handler does not set that header
itself — no `Content-Encoding` header is set and the body passes through
uncompressed. -/
theorem C2_gzip_conditional_compression (compress : Bytes → Bytes)
    (exts : List String) (innerOps : List SinkOp) (r : Request)
    (res : SinkState)
    (hinner : innerOps.all (fun o => !mentionsKey "Content-Encoding" o) = true)
    (hres : res = applyOps emptySink (gzipServe compress exts innerOps false r).ops) :
    ((getHdr res.headers "Content-Encoding").isSome = true ↔
        acceptsGzip r = true ∧ gzipMatch exts (effectiveURI r.requestURI) = true) ∧
      (acceptsGzip r = true → gzipMatch exts (effectiveURI r.requestURI) = true →
        getHdr res.headers "Content-Encoding" = some "gzip" ∧
          res.body = compress (writtenBytes innerOps)) ∧
      (¬(acceptsGzip r = true ∧ gzipMatch exts (effectiveURI r.requestURI) = true) →
        getHdr res.headers "Content-Encoding" = none ∧
          res.body = writtenBytes innerOps) := by
  subst hres
  by_cases h1 : acceptsGzip r = true
  · by_cases h2 : gzipMatch exts (effectiveURI r.requestURI) = true
    · have hops : (gzipServe compress exts innerOps false r).ops =
          SinkOp.setHeader "Content-Encoding" "gzip" :: gzTranslate compress innerOps := by
        simp [gzipServe, h1, h2]
      have hall : (gzTranslate compress innerOps).all
          (fun o => !mentionsKey "Content-Encoding" o) = true := by
        rw [gzTranslate, List.all_append, Bool.and_eq_true]
        exact ⟨all_no_mention_nonWrites innerOps "Content-Encoding" hinner, rfl⟩
      have hhdr : getHdr (applyOps emptySink
          (gzipServe compress exts innerOps false r).ops).headers "Content-Encoding" =
          some "gzip" := by
        rw [hops, applyOps_headers]
        simp only [applyHdrs]
        rw [getHdr_applyHdrs_no_mention _ _ _ hall]
        exact getHdr_setHdr_self [] "Content-Encoding" "gzip"
      have hbody : (applyOps emptySink
          (gzipServe compress exts innerOps false r).ops).body =
          compress (writtenBytes innerOps) := by
        rw [hops, applyOps_body, gzTranslate]
        simp [writtenBytes, writtenBytes_append, writtenBytes_nonWrites, emptySink]
      refine ⟨?_, fun _ _ => ⟨hhdr, hbody⟩, fun hn => absurd ⟨h1, h2⟩ hn⟩
      rw [hhdr]
      simp [h1, h2]
    · have hops : (gzipServe compress exts innerOps false r).ops = innerOps := by
        simp [gzipServe, h1, h2]
      have hhdr : getHdr (applyOps emptySink
          (gzipServe compress exts innerOps false r).ops).headers "Content-Encoding" =
          none := by
        rw [hops, applyOps_headers, getHdr_applyHdrs_no_mention _ _ _ hinner]
        rfl
      have hbody : (applyOps emptySink
          (gzipServe compress exts innerOps false r).ops).body =
          writtenBytes innerOps := by
        rw [hops, applyOps_body]
        simp [emptySink]
      refine ⟨?_, fun _ hb => absurd hb h2, fun _ => ⟨hhdr, hbody⟩⟩
      rw [hhdr]
      simp [h2]
  · have hops : (gzipServe compress exts innerOps false r).ops = innerOps := by
      simp [gzipServe, h1]
    have hhdr : getHdr (applyOps emptySink
        (gzipServe compress exts innerOps false r).ops).headers "Content-Encoding" =
        none := by
      rw [hops, applyOps_headers, getHdr_applyHdrs_no_mention _ _ _ hinner]
      rfl
    have hbody : (applyOps emptySink
        (gzipServe compress exts innerOps false r).ops).body =
        writtenBytes innerOps := by
      rw [hops, applyOps_body]
      simp [emptySink]
    refine ⟨?_, fun ha _ => absurd ha h1, fun _ => ⟨hhdr, hbody⟩⟩
    rw [hhdr]
    simp [h1]

theorem C2_gzip_conditional_compression_witness :
    getHdr (applyOps emptySink (gzipServe (fun bs => 0 :: bs) ["html"]
        [SinkOp.writeHeader 200, SinkOp.write [10, 11]] false rqGz).ops).headers
        "Content-Encoding" = some "gzip" ∧
      (applyOps emptySink (gzipServe (fun bs => 0 :: bs) ["html"]
        [SinkOp.writeHeader 200, SinkOp.write [10, 11]] false rqGz).ops).body =
        [0, 10, 11] :=
  (C2_gzip_conditional_compression (fun bs => 0 :: bs) ["html"]
      [SinkOp.writeHeader 200, SinkOp.write [10, 11]] rqGz _ (by decide) rfl).2.1
    (by decide) (by decide)

/-- Claim C3: the access-log middleware appends exactly one log line per
request, also when the delegated inner handler completes abnormally (the
deferred append runs either way, and the panic then propagates), and the
line's timestamp is the clock reading taken after the inner handler
returned (the request start time plus the handler's duration). -/
theorem C3_log_exactly_once (lines : List String) (base : SinkState)
    (clock0 : Nat) (inner : InnerRun) (r : Request) :
    (logServe lines base clock0 inner r).logLines =
        lines ++ [formatLogLine r (clock0 + inner.dt) (runRecorder inner.ops)] ∧
      (logServe lines base clock0 inner r).logLines.length = lines.length + 1 ∧
      (logServe lines base clock0 inner r).clockEnd = clock0 + inner.dt ∧
      (logServe lines base clock0 inner r).panicked = inner.panics := by
  refine ⟨rfl, ?_, rfl, rfl⟩
  simp [logServe]

/-- Claim C5: a request whose Host header does not contain the configured
hostname substring gets the standard not-found response with wire status
404 and the file-serving handler is never invoked (the response is the
same for every file handler); a request whose Host header contains the
hostname is delegated to the file handler unchanged. -/
theorem C5_host_filter (hostname : String) (files files2 : Request → List SinkOp)
    (r : Request) :
    (goContains r.host hostname = false →
        handlerServe hostname files r = notFoundOps ∧
          handlerServe hostname files r = handlerServe hostname files2 r ∧
          wireStatus (applyOps emptySink (handlerServe hostname files r)) = 404) ∧
      (goContains r.host hostname = true →
        handlerServe hostname files r = files r) := by
  constructor
  · intro h
    have hserve : handlerServe hostname files r = notFoundOps := by
      simp [handlerServe, h]
    have hserve2 : handlerServe hostname files2 r = notFoundOps := by
      simp [handlerServe, h]
    refine ⟨hserve, hserve.trans hserve2.symm, ?_⟩
    rw [hserve]
    rfl
  · intro h
    simp [handlerServe, h]

theorem C5_host_filter_witness :
    handlerServe "example.com" (fun _ => [SinkOp.writeHeader 200]) rqPlain =
        notFoundOps ∧
      wireStatus (applyOps emptySink (handlerServe "example.com"
        (fun _ => [SinkOp.writeHeader 200]) rqPlain)) = 404 ∧
      handlerServe "example.com" (fun _ => [SinkOp.writeHeader 200]) rqGz =
        [SinkOp.writeHeader 200] := by
  refine ⟨?_, ?_, ?_⟩
  · exact ((C5_host_filter "example.com" (fun _ => [SinkOp.writeHeader 200])
      (fun _ => []) rqPlain).1 (by decide)).1
  · exact ((C5_host_filter "example.com" (fun _ => [SinkOp.writeHeader 200])
      (fun _ => []) rqPlain).1 (by decide)).2.2
  · exact (C5_host_filter "example.com" (fun _ => [SinkOp.writeHeader 200])
      (fun _ => []) rqGz).2 (by decide)

/-- Claim C10: when `config.json` cannot be opened, `init` silently leaves the
package-level `config` pointer nil (no panic, no reported error), and
`main` then hits a nil-pointer panic on its first dereference
(`config.Httpd.AccessLog`) instead of reporting a configuration-load
error. -/
theorem C10_nil_config_panic :
    runInit none = (none, false) ∧
      mainStart (runInit none).1 = MainStart.nilPanic := by
  exact ⟨rfl, rfl⟩

/-- Claim C4: in the full pipeline (recorder wrapping the outermost sink, gzip
middleware inside it), the byte count the log line is built from equals
the number of bytes actually delivered to the underlying sink — the
post-compression size when compression is applied, the raw size
otherwise — and the appended line is formatted from that recorder
state. -/
theorem C4_logged_bytes_are_delivered_bytes (lines : List String)
    (clock0 : Nat) (compress : Bytes → Bytes) (exts : List String)
    (inner : InnerRun) (r : Request) (res : LogResult)
    (hres : res = pipelineServe lines emptySink clock0 compress exts inner r) :
    res.recState.bytes = res.base.body.length ∧
      res.logLines = lines ++ [formatLogLine r (clock0 + inner.dt) res.recState] ∧
      (acceptsGzip r = true → gzipMatch exts (effectiveURI r.requestURI) = true →
        res.recState.bytes = (compress (writtenBytes inner.ops)).length) ∧
      (¬(acceptsGzip r = true ∧ gzipMatch exts (effectiveURI r.requestURI) = true) →
        res.recState.bytes = (writtenBytes inner.ops).length) := by
  subst hres
  have hrec : (pipelineServe lines emptySink clock0 compress exts inner r).recState =
      runRecorder (gzipServe compress exts inner.ops inner.panics r).ops := rfl
  have hbase : (pipelineServe lines emptySink clock0 compress exts inner r).base =
      applyOps emptySink (gzipServe compress exts inner.ops inner.panics r).ops := rfl
  refine ⟨?_, rfl, ?_, ?_⟩
  · rw [hrec, hbase, runRecorder, runRecorderFrom_bytes, applyOps_body]
    simp [emptySink]
  · intro h1 h2
    have hops : (gzipServe compress exts inner.ops inner.panics r).ops =
        SinkOp.setHeader "Content-Encoding" "gzip" :: gzTranslate compress inner.ops := by
      simp [gzipServe, h1, h2]
    rw [hrec, hops, runRecorder, runRecorderFrom_bytes, gzTranslate]
    simp [writtenBytes, writtenBytes_append, writtenBytes_nonWrites]
  · intro hn
    have hops : (gzipServe compress exts inner.ops inner.panics r).ops = inner.ops := by
      by_cases h1 : acceptsGzip r = true
      · have h2 : ¬gzipMatch exts (effectiveURI r.requestURI) = true :=
          fun hb => hn ⟨h1, hb⟩
        simp [gzipServe, h1, h2]
      · simp [gzipServe, h1]
    rw [hrec, hops, runRecorder, runRecorderFrom_bytes]
    simp

theorem C4_logged_bytes_are_delivered_bytes_witness :
    (pipelineServe [] emptySink 0 (fun _ => [0]) ["html"]
        ⟨[SinkOp.write [1, 2, 3]], 5, false⟩ rqGz).recState.bytes =
      (pipelineServe [] emptySink 0 (fun _ => [0]) ["html"]
        ⟨[SinkOp.write [1, 2, 3]], 5, false⟩ rqGz).base.body.length ∧
    (pipelineServe [] emptySink 0 (fun _ => [0]) ["html"]
        ⟨[SinkOp.write [1, 2, 3]], 5, false⟩ rqGz).recState.bytes =
      ((fun _ => [0]) (writtenBytes [SinkOp.write [1, 2, 3]])).length :=
  ⟨(C4_logged_bytes_are_delivered_bytes [] 0 (fun _ => [0]) ["html"]
      ⟨[SinkOp.write [1, 2, 3]], 5, false⟩ rqGz _ rfl).1,
    (C4_logged_bytes_are_delivered_bytes [] 0 (fun _ => [0]) ["html"]
      ⟨[SinkOp.write [1, 2, 3]], 5, false⟩ rqGz _ rfl).2.2.1 (by decide) (by decide)⟩

/-- Claim C6: in the TLS variant, every request handled by the plain-HTTP
listener's handler gets — regardless of path and method — a 301 with the
`Strict-Transport-Security` header present and a `Location` equal to the
string form of the request URL rewritten to scheme `"https"`, which
always begins with `"https:"`. -/
theorem C6_ssl_redirect (r : Request) :
    wireStatus (applyOps emptySink (sslServe r)) = 301 ∧
      getHdr (applyOps emptySink (sslServe r)).headers
          "Strict-Transport-Security" = some "max-age=604800" ∧
      getHdr (applyOps emptySink (sslServe r)).headers "Location" =
        some (urlString { r.url with scheme := "https" }) ∧
      ∃ tail, urlString { r.url with scheme := "https" } = "https:" ++ tail := by
  refine ⟨?_, ?_, ?_, ?_⟩
  · rw [wireStatus, applyOps_statusCalls]
    by_cases hm : r.method = "GET" <;>
      simp [sslServe, redirectOps, hm, statusesOf, statusesOf_append, emptySink]
  · rw [applyOps_headers]
    by_cases hm : r.method = "GET" <;>
      simp [sslServe, redirectOps, hm, applyHdrs, applyHdr, setHdr, addHdr,
        removeKey, getHdr, List.find?, emptySink]
  · rw [applyOps_headers]
    by_cases hm : r.method = "GET" <;>
      simp [sslServe, redirectOps, hm, applyHdrs, applyHdr, setHdr, addHdr,
        removeKey, getHdr, List.find?, emptySink]
  · refine ⟨(if ("https" ≠ "" ∨ r.url.host ≠ "") ∧ (r.url.host ≠ "" ∨ r.url.path ≠ "")
        then "//" else "") ++ r.url.host ++ r.url.path ++
        (if r.url.rawQuery ≠ "" then "?" ++ r.url.rawQuery else ""), ?_⟩
    simp [urlString, String.append_assoc]

theorem firstIndexOfChar_lt (c : Char) (l : List Char) (j : Nat)
    (h : firstIndexOfChar c l = some j) : j < l.length := by
  induction l generalizing j with
  | nil => exact absurd h (by simp [firstIndexOfChar])
  | cons a rest ih =>
    simp only [List.length_cons]
    by_cases ha : a = c
    · simp [firstIndexOfChar, ha] at h
      omega
    · simp only [firstIndexOfChar, if_neg ha] at h
      cases heq : firstIndexOfChar c rest with
      | none => rw [heq] at h; exact absurd h (by simp)
      | some j' =>
        rw [heq] at h
        simp at h
        have := ih j' heq
        omega

theorem firstIndexOfChar_append (c : Char) (l₁ l₂ : List Char) :
    firstIndexOfChar c (l₁ ++ l₂) =
      match firstIndexOfChar c l₁ with
      | some j => some j
      | none => (firstIndexOfChar c l₂).map (fun j => l₁.length + j) := by
  induction l₁ with
  | nil =>
    simp only [List.nil_append, firstIndexOfChar, List.length_nil]
    cases firstIndexOfChar c l₂ <;> simp
  | cons a rest ih =>
    by_cases ha : a = c
    · simp [firstIndexOfChar, ha]
    · cases heq : firstIndexOfChar c rest with
      | some j =>
        simp only [List.cons_append, firstIndexOfChar, if_neg ha, List.append_eq]
        rw [ih, heq]
        simp
      | none =>
        cases hl2 : firstIndexOfChar c l₂ with
        | none =>
          simp only [List.cons_append, firstIndexOfChar, if_neg ha, List.append_eq]
          rw [ih, heq, hl2]
          simp
        | some j =>
          simp only [List.cons_append, firstIndexOfChar, if_neg ha, List.append_eq]
          rw [ih, heq, hl2]
          show some (rest.length + j + 1) = some (rest.length + 1 + j)
          congr 1
          omega

theorem lastIndexOfChar_eq_rev (c : Char) (cs : List Char) :
    lastIndexOfChar c cs =
      (firstIndexOfChar c cs.reverse).map (fun j => cs.length - 1 - j) := by
  induction cs with
  | nil => rfl
  | cons a rest ih =>
    rw [List.reverse_cons, firstIndexOfChar_append]
    cases heq : firstIndexOfChar c rest.reverse with
    | some j =>
      have hj : j < rest.length := by
        have := firstIndexOfChar_lt c rest.reverse j heq
        simpa using this
      rw [heq] at ih
      simp only [Option.map] at ih
      simp only [lastIndexOfChar, ih, Option.map, List.length_cons]
      congr 1
      omega
    | none =>
      rw [heq] at ih
      simp only [Option.map] at ih
      by_cases ha : a = c
      · simp [lastIndexOfChar, ih, firstIndexOfChar, ha, List.length_reverse]
      · simp [lastIndexOfChar, ih, firstIndexOfChar, ha]

/-- Counterexample to C7: the code strips square brackets also from
inputs with no colon (`"[abc]"` is logged `"abc"`, not unchanged), and an
input whose only colon is its first character is not truncated
(`":9"` is logged `":9"`, not truncated at the colon to `""`);
`normalizeAddrClaim` is the claim's described mapping. -/
theorem C7_counterexample :
    normalizeAddr "[abc]" = "abc" ∧ normalizeAddrClaim "[abc]" = "[abc]" ∧
      normalizeAddr ":9" = ":9" ∧ normalizeAddrClaim ":9" = "" := by
  refine ⟨?_, ?_, ?_, ?_⟩ <;> decide

/-- Claim C7 (amended): the logged address is the input truncated at its last
colon only when that colon occurs at a positive position (an input whose
only colon is its first character, or with no colon, is not truncated),
with all leading and trailing square-bracket characters then stripped in
every case; the spec's three examples behave as stated. -/
theorem C7_addr_normalization_amended (s : String) :
    normalizeAddr s = normalizeAddrAmended s ∧
      normalizeAddr "203.0.113.5:51000" = "203.0.113.5" ∧
      normalizeAddr "[::1]:9999" = "::1" ∧
      normalizeAddr "203.0.113.5" = "203.0.113.5" := by
  refine ⟨?_, by decide, by decide, by decide⟩
  rw [normalizeAddr, normalizeAddrAmended, goCutPort, cutPortRev,
    lastIndexOfChar_eq_rev]
  cases heq : firstIndexOfChar ':' s.toList.reverse with
  | none => rfl
  | some j =>
    have hj : j < s.toList.length := by
      have := firstIndexOfChar_lt ':' s.toList.reverse j heq
      simpa using this
    simp only [Option.map]
    by_cases hcond : j + 2 ≤ s.toList.length
    · rw [if_pos (show 0 < s.toList.length - 1 - j by omega), if_pos hcond]
    · rw [if_neg (show ¬0 < s.toList.length - 1 - j by omega), if_neg hcond]
